import Mathlib

/-!
Verification of the entropy-based file triage tool
(`scanner.py` and `visualize_entropy.py`).

The development shallowly embeds the two Python files:

* `calculate_entropy` (scanner.py, lines 19-39): whole-file Shannon
  entropy with logarithm base 256, so values are normalized to [0, 1].
* `SimpleScanner._heuristic_scan` (scanner.py, lines 120-133): the
  rule-based classifier with thresholds 7.0 and 3.0.
* `SimpleScanner.scan_file` (scanner.py, lines 90-118): the
  classification pipeline (model attempt with fallback to heuristic).
* `calculate_local_entropy` (visualize_entropy.py, lines 12-41): the
  windowed block-entropy profile.

Bytes are modelled as `Fin 256`, Python floats as real numbers, and the
opaque pickled ML model as an oracle describing the outcome of its
`predict` call (success with a label and optional probability, or an
exception).  The printed verdict/reason/confidence lines of the source
are modelled as a returned `Verdict` record; the three reason strings of
the heuristic are modelled as an enumeration, one constructor per print
branch.
-/

open Real List Finset

/-- A byte value, as stored in the 256-bucket histogram of the source. -/
abbrev Byte := Fin 256

/-- Verdict status. The source prints CLEAN / SUSPICIOUS in the heuristic
branch and BENIGN / MALICIOUS in the model branch; BENIGN is the model
branch's clean status. -/
inductive Status where
  | clean
  | suspicious
  | malicious
deriving DecidableEq

/-- Reasons printed by `_heuristic_scan`, one per branch:
`highEntropy` is the source string "High entropy detected (> 7.0),
indicating packed or encrypted code.", `lowEntropyLargeFile` is
"Low entropy for large file, possible text disguise." and
`normalParams` is "Entropy levels within normal parameters." -/
inductive HeuristicReason where
  | highEntropy
  | lowEntropyLargeFile
  | normalParams
deriving DecidableEq

/-- One verdict as printed by the scanner.  The model branch prints a
confidence and no reason line; the heuristic branch prints a reason line
and no confidence, hence the two `Option` fields. -/
structure Verdict where
  status : Status
  confidence : Option ℝ
  reason : Option HeuristicReason

/-- Embedding of `calculate_entropy` (scanner.py, lines 19-39):
histogram of the 256 byte values, then
`entropy -= p * math.log(p, 256)` over the non-zero buckets, with
`p = count / len(data)`; an empty buffer returns `0.0`.
`math.log(p, 256)` is `Real.logb 256 p`. -/
noncomputable def calculate_entropy (data : List Byte) : ℝ :=
  if data = [] then 0
  else
    ∑ v : Byte,
      if data.count v = 0 then 0
      else -(((data.count v : ℝ) / data.length) *
              Real.logb 256 ((data.count v : ℝ) / data.length))

/-- Embedding of `SimpleScanner._heuristic_scan` (scanner.py, lines
120-133).  The Python float literals `7.0` and `3.0` are the real
numbers 7 and 3.  The source prints a verdict line and a reason line and
no confidence line, so `confidence` is `none`. -/
noncomputable def heuristic_scan (entropy : ℝ) (file_size : ℕ) : Verdict :=
  if entropy > 7 then
    ⟨Status.suspicious, none, some HeuristicReason.highEntropy⟩
  else if entropy < 3 ∧ file_size > 10000 then
    ⟨Status.suspicious, none, some HeuristicReason.lowEntropyLargeFile⟩
  else
    ⟨Status.clean, none, some HeuristicReason.normalParams⟩

/-- Outcome of calling `self.model.predict(features)` on the opaque
loaded model (an external collaborator): either the call (together with
the optional `predict_proba` call) succeeds, yielding the label
`prediction[0]` and, when the model exposes `predict_proba`, the value
`max(prob[0])`; or it raises an exception. -/
inductive PredictOutcome where
  | success (label : ℤ) (probaMax : Option ℝ)
  | failure

/-- An opaque loaded model, described by what its predict call does on a
given feature vector `[entropy, file_size]`. -/
structure MLModel where
  predict : ℝ → ℕ → PredictOutcome

/-- Embedding of the classification part of `SimpleScanner.scan_file`
(scanner.py, lines 90-118), after the bytes have been read: if
`self.model and HAS_NUMPY`, try the model; on success report
MALICIOUS/BENIGN with confidence `max(prob[0]) * 100` (or `100.0`
when there is no `predict_proba`); on an exception, and likewise when no
model is loaded, run `_heuristic_scan` on the same entropy and size. -/
noncomputable def scan_classify (hasNumpy : Bool) (model : Option MLModel)
    (entropy : ℝ) (file_size : ℕ) : Verdict :=
  match model, hasNumpy with
  | some m, true =>
    match m.predict entropy file_size with
    | PredictOutcome.success label probaMax =>
      let confidence : ℝ :=
        match probaMax with
        | some p => p * 100
        | none => 100
      { status := if label = 1 then Status.malicious else Status.clean
        confidence := some confidence
        reason := none }
    | PredictOutcome.failure => heuristic_scan entropy file_size
  | _, _ => heuristic_scan entropy file_size

/-- Embedding of `SimpleScanner.scan_file` on an already-read byte
buffer: the entropy handed to classification is `calculate_entropy data`
and the size is `len(data)`. -/
noncomputable def scan_file (hasNumpy : Bool) (model : Option MLModel)
    (data : List Byte) : Verdict :=
  scan_classify hasNumpy model (calculate_entropy data) data.length

/-- Embedding of the per-chunk entropy computed inside the loop of
`calculate_local_entropy` (visualize_entropy.py, lines 25-39): the same
base-256 histogram formula, over the chunk's own length. -/
noncomputable def chunkEntropy (chunk : List Byte) : ℝ :=
  ∑ v : Byte,
    if chunk.count v = 0 then 0
    else -(((chunk.count v : ℝ) / chunk.length) *
            Real.logb 256 ((chunk.count v : ℝ) / chunk.length))

/-- Embedding of the loop `for i in range(0, len(data), window_size)` of
`calculate_local_entropy`: successive chunks `data[i:i+window_size]`,
each contributing its own entropy.  The loop body never sees an empty
chunk (the indices stay below `len(data)`), and `range` with step 0 is
rejected by Python, so the `window_size = 0` guard only serves
termination. -/
noncomputable def chunkLoop (window_size : ℕ) (data : List Byte) : List ℝ :=
  if h : data = [] ∨ window_size = 0 then []
  else
    chunkEntropy (data.take window_size) ::
      chunkLoop window_size (data.drop window_size)
termination_by data.length
decreasing_by
  simp only [List.length_drop]
  rcases not_or.mp h with ⟨hd, hw⟩
  have hlen : 0 < data.length := List.length_pos.mpr hd
  omega

/-- Embedding of `calculate_local_entropy` (visualize_entropy.py, lines
12-41): a buffer shorter than the window returns the sentinel `[0]`,
otherwise the per-chunk entropies are collected in order. -/
noncomputable def calculate_local_entropy (data : List Byte)
    (window_size : ℕ) : List ℝ :=
  if data.length < window_size then [0]
  else chunkLoop window_size data

/-! ### Basic facts about the heuristic -/

lemma heuristic_scan_high {e : ℝ} (s : ℕ) (h : 7 < e) :
    heuristic_scan e s =
      ⟨Status.suspicious, none, some HeuristicReason.highEntropy⟩ := by
  rw [heuristic_scan, if_pos h]

lemma heuristic_scan_low {e : ℝ} {s : ℕ} (h7 : ¬ 7 < e)
    (h : e < 3 ∧ s > 10000) :
    heuristic_scan e s =
      ⟨Status.suspicious, none, some HeuristicReason.lowEntropyLargeFile⟩ := by
  rw [heuristic_scan, if_neg h7, if_pos h]

lemma heuristic_scan_clean {e : ℝ} {s : ℕ} (h7 : ¬ 7 < e)
    (h : ¬ (e < 3 ∧ s > 10000)) :
    heuristic_scan e s =
      ⟨Status.clean, none, some HeuristicReason.normalParams⟩ := by
  rw [heuristic_scan, if_neg h7, if_neg h]

/-! ### Claims C1 and C2: the heuristic decision table -/

/-- C1, counterexample.  The claim predicts that the feature vector
(entropy = 0.9, size = 1000) is classified Suspicious with the
high-entropy reason, because 0.9 exceeds 7/8 of the normalized maximum.
The source compares the entropy against the literal 7.0, so 0.9 falls
through both Suspicious branches and the verdict is Clean. -/
theorem c1_high_entropy_counterexample :
    (heuristic_scan (9 / 10) 1000).status = Status.clean ∧
      (heuristic_scan (9 / 10) 1000).status ≠ Status.suspicious := by
  have h := heuristic_scan_clean (e := 9 / 10) (s := 1000)
    (by norm_num) (by norm_num)
  rw [h]
  exact ⟨rfl, by simp⟩

/-- C1, amended: the high-entropy Suspicious branch of
`_heuristic_scan` fires exactly above the unnormalized threshold 7.0
(not above 0.875 on the normalized scale); every feature vector with
entropy strictly greater than 7.0 is classified Suspicious with the
high-entropy reason, and the heuristic prints no confidence value. -/
theorem c1_high_entropy_amended (e : ℝ) (s : ℕ) (h : 7 < e) :
    heuristic_scan e s =
      ⟨Status.suspicious, none, some HeuristicReason.highEntropy⟩ :=
  heuristic_scan_high s h

/-- C1, witness for the amended theorem at entropy 8, size 0. -/
theorem c1_high_entropy_amended_witness :
    heuristic_scan 8 0 =
      ⟨Status.suspicious, none, some HeuristicReason.highEntropy⟩ :=
  c1_high_entropy_amended 8 0 (by norm_num)

/-- C2, counterexample.  The claim predicts Clean for
(entropy = 0.5, size = 20000), since 0.5 is not below its low-entropy
threshold 0.375.  The source compares against the literal 3.0, and
0.5 < 3.0 with size 20000 > 10000, so the verdict is Suspicious with the
low-entropy reason. -/
theorem c2_low_entropy_counterexample :
    (heuristic_scan (1 / 2) 20000).status = Status.suspicious ∧
      (heuristic_scan (1 / 2) 20000).reason =
        some HeuristicReason.lowEntropyLargeFile ∧
      ¬ ((1 : ℝ) / 2 < 0.375) := by
  have h := heuristic_scan_low (e := 1 / 2) (s := 20000)
    (by norm_num) (by norm_num)
  rw [h]
  refine ⟨rfl, rfl, by norm_num⟩

/-- C2, amended: for every feature vector whose entropy is at most 7.0,
`_heuristic_scan` returns Suspicious with the low-entropy reason exactly
when entropy < 3.0 (not 0.375) and size > 10000 bytes, and otherwise
returns Clean with the normal-parameters reason; the heuristic prints no
confidence value in either branch. -/
theorem c2_low_entropy_amended (e : ℝ) (s : ℕ) (h7 : e ≤ 7) :
    (heuristic_scan e s =
        ⟨Status.suspicious, none, some HeuristicReason.lowEntropyLargeFile⟩ ↔
      e < 3 ∧ s > 10000) ∧
    (¬ (e < 3 ∧ s > 10000) →
      heuristic_scan e s =
        ⟨Status.clean, none, some HeuristicReason.normalParams⟩) := by
  have h7' : ¬ 7 < e := not_lt.mpr h7
  constructor
  · constructor
    · intro heq
      by_contra hc
      rw [heuristic_scan_clean h7' hc] at heq
      exact Status.noConfusion (congrArg Verdict.status heq)
    · exact heuristic_scan_low h7'
  · exact heuristic_scan_clean h7'

/-- C2, witness for the amended theorem at entropy 1, size 20000. -/
theorem c2_low_entropy_amended_witness :
    heuristic_scan 1 20000 =
      ⟨Status.suspicious, none, some HeuristicReason.lowEntropyLargeFile⟩ :=
  ((c2_low_entropy_amended 1 20000 (by norm_num)).1).mpr (by norm_num)

/-! ### Facts about the entropy calculation -/

lemma sum_count_eq_length (b : List Byte) :
    ∑ v : Byte, b.count v = b.length := by
  induction b with
  | nil => simp
  | cons a l ih =>
    simp [List.count_cons, Finset.sum_add_distrib, ih, beq_iff_eq,
      Nat.add_comm]

lemma sum_count_real (b : List Byte) :
    ∑ v : Byte, (b.count v : ℝ) = (b.length : ℝ) := by
  have h := sum_count_eq_length b
  push_cast [← h]
  rfl

lemma entropy_term_nonneg (b : List Byte) (v : Byte) :
    0 ≤ if b.count v = 0 then (0 : ℝ)
        else -(((b.count v : ℝ) / b.length) *
                Real.logb 256 ((b.count v : ℝ) / b.length)) := by
  by_cases h : b.count v = 0
  · rw [if_pos h]
  · rw [if_neg h]
    have hb : b ≠ [] := by
      intro hnil
      subst hnil
      simp at h
    have hn : 0 < b.length := List.length_pos.mpr hb
    have hnR : (0 : ℝ) < b.length := by exact_mod_cast hn
    set p : ℝ := (b.count v : ℝ) / b.length with hp
    have hp0 : 0 ≤ p := div_nonneg (Nat.cast_nonneg _) (Nat.cast_nonneg _)
    have hp1 : p ≤ 1 := by
      rw [hp, div_le_one hnR]
      exact_mod_cast List.count_le_length v b
    have hlog : Real.logb 256 p ≤ 0 :=
      Real.logb_nonpos (by norm_num) hp0 hp1
    have h1 : 0 ≤ p * -Real.logb 256 p :=
      mul_nonneg hp0 (neg_nonneg.mpr hlog)
    linarith

lemma calculate_entropy_nonneg (b : List Byte) : 0 ≤ calculate_entropy b := by
  rw [calculate_entropy]
  by_cases hb : b = []
  · rw [if_pos hb]
  · rw [if_neg hb]
    exact Finset.sum_nonneg fun v _ => entropy_term_nonneg b v

lemma calculate_entropy_le_one (b : List Byte) : calculate_entropy b ≤ 1 := by
  rw [calculate_entropy]
  by_cases hb : b = []
  · rw [if_pos hb]; norm_num
  rw [if_neg hb]
  have hn : 0 < b.length := List.length_pos.mpr hb
  have hnR : (0 : ℝ) < b.length := by exact_mod_cast hn
  have hlog256 : (0 : ℝ) < Real.log 256 := Real.log_pos (by norm_num)
  set t : Finset Byte := Finset.univ.filter (fun v => b.count v ≠ 0) with ht
  set w : Byte → ℝ := fun v => (b.count v : ℝ) / b.length with hw
  have hsum :
      (∑ v : Byte, if b.count v = 0 then (0 : ℝ)
          else -(((b.count v : ℝ) / b.length) *
                  Real.logb 256 ((b.count v : ℝ) / b.length)))
        = ∑ v ∈ t, -(w v * Real.logb 256 (w v)) := by
    rw [ht, Finset.sum_filter]
    apply Finset.sum_congr rfl
    intro v _
    by_cases h : b.count v = 0 <;> simp [h, hw]
  rw [hsum]
  have hw_nonneg : ∀ v ∈ t, 0 ≤ w v := fun v _ =>
    div_nonneg (Nat.cast_nonneg _) (Nat.cast_nonneg _)
  have hw_pos : ∀ v ∈ t, 0 < w v := by
    intro v hv
    rw [ht, Finset.mem_filter] at hv
    have hc : 0 < b.count v := Nat.pos_of_ne_zero hv.2
    exact div_pos (by exact_mod_cast hc) hnR
  have hw_sum : ∑ v ∈ t, w v = 1 := by
    rw [hw]
    simp only
    rw [← Finset.sum_div]
    have hsub : ∑ v ∈ t, (b.count v : ℝ) = ∑ v : Byte, (b.count v : ℝ) := by
      apply Finset.sum_subset (Finset.subset_univ t)
      intro x _ hx
      have hc : b.count x = 0 := by
        by_contra hcc
        exact hx (by rw [ht, Finset.mem_filter]
                     exact ⟨Finset.mem_univ x, hcc⟩)
      rw [hc]
      norm_num
    rw [hsub, sum_count_real, div_self (ne_of_gt hnR)]
  have hmem : ∀ v ∈ t, (w v)⁻¹ ∈ Set.Ioi (0 : ℝ) := fun v hv =>
    Set.mem_Ioi.mpr (inv_pos.mpr (hw_pos v hv))
  have jensen :=
    (strictConcaveOn_log_Ioi.concaveOn).le_map_sum hw_nonneg hw_sum hmem
  have hsum_inv : ∑ v ∈ t, w v • (w v)⁻¹ = (t.card : ℝ) := by
    have hone : ∀ v ∈ t, w v • (w v)⁻¹ = (1 : ℝ) := fun v hv => by
      rw [smul_eq_mul, mul_inv_cancel₀ (ne_of_gt (hw_pos v hv))]
    rw [Finset.sum_congr rfl hone, Finset.sum_const, nsmul_eq_mul, mul_one]
  have hcard_pos : 0 < t.card := by
    obtain ⟨v, hv⟩ := List.exists_mem_of_ne_nil b hb
    have hvt : v ∈ t := by
      rw [ht, Finset.mem_filter]
      exact ⟨Finset.mem_univ v,
        Nat.pos_iff_ne_zero.mp (List.count_pos_iff.mpr hv)⟩
    exact Finset.card_pos.mpr ⟨v, hvt⟩
  have hcard_le : t.card ≤ 256 :=
    le_trans (Finset.card_filter_le _ _)
      (by rw [Finset.card_univ, Fintype.card_fin])
  have hlog_card : Real.log (t.card : ℝ) ≤ Real.log 256 :=
    Real.log_le_log (by exact_mod_cast hcard_pos) (by exact_mod_cast hcard_le)
  have hterm : ∀ v ∈ t,
      -(w v * Real.logb 256 (w v)) =
        (w v * Real.log ((w v)⁻¹)) / Real.log 256 := by
    intro v _
    rw [Real.log_inv, Real.logb]
    ring
  have hjensen' : ∑ v ∈ t, w v * Real.log ((w v)⁻¹) ≤ Real.log 256 := by
    have hj : ∑ v ∈ t, w v • Real.log ((w v)⁻¹) ≤
        Real.log (∑ v ∈ t, w v • (w v)⁻¹) := jensen
    rw [hsum_inv] at hj
    simp only [smul_eq_mul] at hj
    exact le_trans hj hlog_card
  calc ∑ v ∈ t, -(w v * Real.logb 256 (w v))
      = (∑ v ∈ t, w v * Real.log ((w v)⁻¹)) / Real.log 256 := by
        rw [Finset.sum_congr rfl hterm, Finset.sum_div]
    _ ≤ Real.log 256 / Real.log 256 :=
        (div_le_div_iff_of_pos_right hlog256).mpr hjensen'
    _ = 1 := div_self (ne_of_gt hlog256)

/-! ### Claims C5 and C6: zero entropy and uniform entropy -/

/-- C5: the whole-file entropy is exactly 0.0 if and only if the buffer
is empty or consists of at least one repetition of a single byte
value. -/
theorem c5_zero_entropy_characterization (b : List Byte) :
    calculate_entropy b = 0 ↔
      b = [] ∨ ∃ (n : ℕ) (v : Byte), 1 ≤ n ∧ b = List.replicate n v := by
  constructor
  · intro h0
    by_cases hb : b = []
    · exact Or.inl hb
    right
    rw [calculate_entropy, if_neg hb] at h0
    have hn : 0 < b.length := List.length_pos.mpr hb
    have hnR : (0 : ℝ) < b.length := by exact_mod_cast hn
    have hall := (Finset.sum_eq_zero_iff_of_nonneg
      (fun v _ => entropy_term_nonneg b v)).mp h0
    obtain ⟨v, hv⟩ := List.exists_mem_of_ne_nil b hb
    have hcv : b.count v ≠ 0 :=
      Nat.pos_iff_ne_zero.mp (List.count_pos_iff.mpr hv)
    have hterm := hall v (Finset.mem_univ v)
    rw [if_neg hcv] at hterm
    set p : ℝ := (b.count v : ℝ) / b.length with hp
    have hppos : 0 < p :=
      div_pos (by exact_mod_cast Nat.pos_of_ne_zero hcv) hnR
    have hprod : p * Real.logb 256 p = 0 := by linarith
    have hlogb : Real.logb 256 p = 0 := by
      rcases mul_eq_zero.mp hprod with h | h
      · exact absurd h (ne_of_gt hppos)
      · exact h
    have hlogp : Real.log p = 0 := by
      rw [Real.logb] at hlogb
      rcases div_eq_zero_iff.mp hlogb with h | h
      · exact h
      · exact absurd h (ne_of_gt (Real.log_pos (by norm_num)))
    have hp1 : p = 1 := by
      rcases Real.log_eq_zero.mp hlogp with h | h | h
      · exact absurd h (ne_of_gt hppos)
      · exact h
      · linarith
    have hcount : b.count v = b.length := by
      have hcast : (b.count v : ℝ) = (b.length : ℝ) := by
        have := (div_eq_one_iff_eq (ne_of_gt hnR)).mp (hp ▸ hp1)
        exact this
      exact_mod_cast hcast
    refine ⟨b.length, v, hn, ?_⟩
    rw [List.eq_replicate_iff]
    exact ⟨rfl, fun x hx => (List.count_eq_length.mp hcount x hx).symm⟩
  · rintro (rfl | ⟨n, v, hn1, rfl⟩)
    · rw [calculate_entropy, if_pos rfl]
    · have hne : List.replicate n v ≠ [] := by
        intro h
        have := congrArg List.length h
        simp at this
        omega
      rw [calculate_entropy, if_neg hne]
      apply Finset.sum_eq_zero
      intro x _
      by_cases hx : v = x
      · subst hx
        rw [List.count_replicate_self, if_neg (by omega : ¬ n = 0),
          List.length_replicate,
          div_self (Nat.cast_ne_zero.mpr (by omega : n ≠ 0))]
        simp
      · have hc : (List.replicate n v).count x = 0 := by
          simp [List.count_replicate, hx]
        rw [hc, if_pos rfl]

/-- C6: a buffer of length 256 containing each byte value exactly once
has entropy exactly 1.0, hence within the 1e-9 tolerance of 1.0. -/
theorem c6_uniform_entropy_one (b : List Byte) (hlen : b.length = 256)
    (hcount : ∀ v : Byte, b.count v = 1) :
    calculate_entropy b = 1 ∧
      |calculate_entropy b - 1| ≤ 1 / 1000000000 := by
  have hb : b ≠ [] := by
    intro h
    subst h
    simp at hlen
  have h1 : calculate_entropy b = 1 := by
    rw [calculate_entropy, if_neg hb]
    have hterm : ∀ v : Byte,
        (if b.count v = 0 then (0 : ℝ)
          else -(((b.count v : ℝ) / b.length) *
                  Real.logb 256 ((b.count v : ℝ) / b.length)))
          = 1 / 256 := by
      intro v
      rw [hcount v, if_neg one_ne_zero, hlen]
      have h256 : ((1 : ℕ) : ℝ) / ((256 : ℕ) : ℝ) = ((256 : ℝ))⁻¹ := by
        norm_num
      rw [h256, Real.logb_inv, Real.logb_self_eq_one (by norm_num)]
      norm_num
    rw [Finset.sum_congr rfl (fun v _ => hterm v), Finset.sum_const,
      Finset.card_univ, Fintype.card_fin, nsmul_eq_mul]
    norm_num
  refine ⟨h1, ?_⟩
  rw [h1]
  norm_num

/-- C6, witness: the buffer `finRange 256` lists each byte value exactly
once, and its entropy is exactly 1. -/
theorem c6_uniform_entropy_one_witness :
    calculate_entropy (List.finRange 256) = 1 ∧
      |calculate_entropy (List.finRange 256) - 1| ≤ 1 / 1000000000 :=
  c6_uniform_entropy_one (List.finRange 256)
    (by simp)
    (fun v => List.count_eq_one_of_mem (List.nodup_finRange 256)
      (List.mem_finRange v))

/-! ### Facts about the windowed entropy profile -/

lemma chunkEntropy_eq_calculate_entropy (c : List Byte) :
    chunkEntropy c = calculate_entropy c := by
  by_cases hc : c = []
  · subst hc
    rw [chunkEntropy, calculate_entropy, if_pos rfl]
    apply Finset.sum_eq_zero
    intro v _
    rw [List.count_nil, if_pos rfl]
  · rw [chunkEntropy, calculate_entropy, if_neg hc]

lemma chunkLoop_eq (w : ℕ) (data : List Byte) :
    chunkLoop w data =
      if data = [] ∨ w = 0 then []
      else chunkEntropy (data.take w) :: chunkLoop w (data.drop w) := by
  rw [chunkLoop]
  by_cases h : data = [] ∨ w = 0
  · rw [dif_pos h, if_pos h]
  · rw [dif_neg h, if_neg h]

lemma ceil_div_step (n w : ℕ) (hw : 0 < w) (hn : 0 < n) :
    (n - w + w - 1) / w + 1 = (n + w - 1) / w := by
  rcases le_or_lt w n with h | h
  · have h1 : n - w + w - 1 = n - 1 := by omega
    have h2 : n + w - 1 = (n - 1) + w := by omega
    rw [h1, h2, Nat.add_div_right _ hw]
  · have h1 : n - w = 0 := by omega
    have h2 : (0 + w - 1) / w = 0 := Nat.div_eq_of_lt (by omega)
    have h3 : n + w - 1 = (n - 1) + w := by omega
    rw [h1, h2, h3, Nat.add_div_right _ hw, Nat.div_eq_of_lt (by omega)]

lemma chunkLoop_length (w : ℕ) (hw : 0 < w) :
    ∀ (n : ℕ) (data : List Byte), data.length = n →
      (chunkLoop w data).length = (data.length + w - 1) / w := by
  intro n
  induction n using Nat.strong_induction_on with
  | _ n ih =>
    intro data hdn
    subst hdn
    rw [chunkLoop_eq]
    by_cases hd : data = []
    · subst hd
      simp [Nat.div_eq_of_lt (by omega : w - 1 < w)]
    · rw [if_neg (not_or.mpr ⟨hd, Nat.pos_iff_ne_zero.mp hw⟩)]
      simp only [List.length_cons]
      have hpos : 0 < data.length := List.length_pos.mpr hd
      have hlt : (data.drop w).length < data.length := by
        rw [List.length_drop]
        omega
      rw [ih (data.drop w).length hlt (data.drop w) rfl, List.length_drop]
      exact ceil_div_step data.length w hw hpos

lemma chunkLoop_getD (w : ℕ) (hw : 0 < w) :
    ∀ (i : ℕ) (data : List Byte), i < (chunkLoop w data).length →
      (chunkLoop w data).getD i 0 =
        chunkEntropy ((data.drop (i * w)).take w) := by
  intro i
  induction i with
  | zero =>
    intro data hi
    rw [chunkLoop_eq] at hi ⊢
    by_cases hd : data = [] ∨ w = 0
    · rw [if_pos hd] at hi
      simp at hi
    · rw [if_neg hd]
      simp
  | succ i ih =>
    intro data hi
    rw [chunkLoop_eq] at hi ⊢
    by_cases hd : data = [] ∨ w = 0
    · rw [if_pos hd] at hi
      simp at hi
    · rw [if_neg hd] at hi ⊢
      simp only [List.getD_cons_succ]
      have hi' : i < (chunkLoop w (data.drop w)).length := by
        simp only [List.length_cons] at hi
        omega
      rw [ih (data.drop w) hi', List.drop_drop,
        (by ring : w + i * w = (i + 1) * w)]

lemma chunkLoop_mem_bounds (w : ℕ) :
    ∀ (n : ℕ) (data : List Byte), data.length = n →
      ∀ x ∈ chunkLoop w data, 0 ≤ x ∧ x ≤ 1 := by
  intro n
  induction n using Nat.strong_induction_on with
  | _ n ih =>
    intro data hdn x hx
    subst hdn
    rw [chunkLoop_eq] at hx
    by_cases hd : data = [] ∨ w = 0
    · rw [if_pos hd] at hx
      simp at hx
    · rw [if_neg hd] at hx
      rcases List.mem_cons.mp hx with h | h
      · rw [h, chunkEntropy_eq_calculate_entropy]
        exact ⟨calculate_entropy_nonneg _, calculate_entropy_le_one _⟩
      · rcases not_or.mp hd with ⟨hd1, hw0⟩
        have hpos : 0 < data.length := List.length_pos.mpr hd1
        have hlt : (data.drop w).length < data.length := by
          rw [List.length_drop]
          omega
        exact ih (data.drop w).length hlt (data.drop w) rfl x h

/-! ### Claims C7, C8, C9: entropy range and the windowed profile -/

/-- C7: every whole-file entropy value lies in [0, 1], and so does every
element of a windowed profile taken with a positive window size
(including the sentinel 0 of the short-buffer case). -/
theorem c7_entropy_in_unit_interval (b : List Byte) (w : ℕ) (hw : 0 < w) :
    (0 ≤ calculate_entropy b ∧ calculate_entropy b ≤ 1) ∧
      ∀ x ∈ calculate_local_entropy b w, 0 ≤ x ∧ x ≤ 1 := by
  refine ⟨⟨calculate_entropy_nonneg b, calculate_entropy_le_one b⟩, ?_⟩
  intro x hx
  rw [calculate_local_entropy] at hx
  by_cases hlen : b.length < w
  · rw [if_pos hlen] at hx
    simp only [List.mem_singleton] at hx
    subst hx
    norm_num
  · rw [if_neg hlen] at hx
    exact chunkLoop_mem_bounds w b.length b rfl x hx

/-- C7, witness at the buffer [5] with window size 1. -/
theorem c7_entropy_in_unit_interval_witness :
    (0 ≤ calculate_entropy [(5 : Byte)] ∧
        calculate_entropy [(5 : Byte)] ≤ 1) ∧
      ∀ x ∈ calculate_local_entropy [(5 : Byte)] 1, 0 ≤ x ∧ x ≤ 1 :=
  c7_entropy_in_unit_interval [(5 : Byte)] 1 (by norm_num)

/-- C8: with a positive window size, a buffer shorter than the window
yields the sentinel profile [0], and otherwise the profile has exactly
ceil(len / w) = (len + w - 1) / w entries. -/
theorem c8_windowed_profile_length (b : List Byte) (w : ℕ) (hw : 0 < w) :
    (b.length < w → calculate_local_entropy b w = [0]) ∧
      (w ≤ b.length →
        (calculate_local_entropy b w).length = (b.length + w - 1) / w) := by
  constructor
  · intro h
    rw [calculate_local_entropy, if_pos h]
  · intro h
    rw [calculate_local_entropy, if_neg (not_lt.mpr h)]
    exact chunkLoop_length w hw b.length b rfl

/-- C8, witness: a 3-byte buffer with window size 2 yields a profile of
length ceil(3/2) = 2, and the empty buffer yields [0]. -/
theorem c8_windowed_profile_length_witness :
    (calculate_local_entropy (List.replicate 3 (0 : Byte)) 2).length = 2 ∧
      calculate_local_entropy ([] : List Byte) 2 = [0] := by
  constructor
  · have h := (c8_windowed_profile_length (List.replicate 3 (0 : Byte)) 2
      (by norm_num)).2 (by simp)
    simpa using h
  · exact (c8_windowed_profile_length ([] : List Byte) 2 (by norm_num)).1
      (by simp)

/-- C9: for a buffer at least as long as the positive window size, the
i-th profile entry is the whole-file entropy of the i-th consecutive
non-overlapping chunk `b[i*w : (i+1)*w]`, computed over that chunk's own
length by the same base-256 formula. -/
theorem c9_windowed_refines_whole (b : List Byte) (w i : ℕ) (hw : 0 < w)
    (hwb : w ≤ b.length) (hi : i < (calculate_local_entropy b w).length) :
    (calculate_local_entropy b w).getD i 0 =
      calculate_entropy ((b.drop (i * w)).take w) := by
  rw [calculate_local_entropy, if_neg (not_lt.mpr hwb)] at hi ⊢
  rw [chunkLoop_getD w hw i b hi, chunkEntropy_eq_calculate_entropy]

/-- C9, witness: the second profile entry of the buffer [0, 1, 2] with
window size 2 is the entropy of the trailing chunk [2]. -/
theorem c9_windowed_refines_whole_witness :
    (calculate_local_entropy [(0 : Byte), 1, 2] 2).getD 1 0 =
      calculate_entropy (([(0 : Byte), 1, 2].drop 2).take 2) := by
  apply c9_windowed_refines_whole [(0 : Byte), 1, 2] 2 1 (by norm_num)
    (by simp)
  rw [calculate_local_entropy, if_neg (by simp),
    chunkLoop_length 2 (by norm_num) ([(0 : Byte), 1, 2].length)
      [(0 : Byte), 1, 2] rfl]
  norm_num

/-! ### Claim C10: the composed scan -/

/-- C10: the entropy handed to the heuristic by a scan is the base-256
normalized value of `calculate_entropy`, hence at most 1; the comparison
entropy > 7.0 never fires, entropy < 3.0 always holds, and the heuristic
verdict of a scan depends only on whether the file size exceeds 10000
bytes. -/
theorem c10_high_branch_unreachable (data : List Byte) :
    calculate_entropy data ≤ 1 ∧
      ¬ (calculate_entropy data > 7) ∧
      calculate_entropy data < 3 ∧
      (∀ hasNumpy : Bool, scan_file hasNumpy none data =
        heuristic_scan (calculate_entropy data) data.length) ∧
      heuristic_scan (calculate_entropy data) data.length =
        (if data.length > 10000 then
          ⟨Status.suspicious, none, some HeuristicReason.lowEntropyLargeFile⟩
        else ⟨Status.clean, none, some HeuristicReason.normalParams⟩) := by
  have h1 := calculate_entropy_le_one data
  have h3 : calculate_entropy data < 3 := lt_of_le_of_lt h1 (by norm_num)
  have h7 : ¬ (calculate_entropy data > 7) := fun h => by linarith
  refine ⟨h1, h7, h3, ?_, ?_⟩
  · intro hasNumpy
    cases hasNumpy <;> rfl
  · by_cases hs : data.length > 10000
    · rw [if_pos hs]
      exact heuristic_scan_low h7 ⟨h3, hs⟩
    · rw [if_neg hs]
      exact heuristic_scan_clean h7 (fun hc => hs hc.2)

/-! ### Claims C3 and C4: the pipeline -/

/-- C3: whenever a model is present and its predict call raises, the
scan returns exactly the verdict of `_heuristic_scan` on the same
(entropy, size) feature vector; the exception is absorbed. -/
theorem c3_model_failure_fallback (hasNumpy : Bool) (m : MLModel)
    (e : ℝ) (s : ℕ) (h : m.predict e s = PredictOutcome.failure) :
    scan_classify hasNumpy (some m) e s = heuristic_scan e s := by
  cases hasNumpy with
  | false => rfl
  | true => simp only [scan_classify, h]

/-- C3, witness: a model whose predict call always raises, on the
feature vector (entropy = 0, size = 0). -/
theorem c3_model_failure_fallback_witness :
    scan_classify true (some ⟨fun _ _ => PredictOutcome.failure⟩) 0 0 =
      heuristic_scan 0 0 :=
  c3_model_failure_fallback true ⟨fun _ _ => PredictOutcome.failure⟩ 0 0 rfl

/-- C4: one run of the pipeline on an already-read buffer produces
exactly one verdict, whether or not a model is present and whatever the
model does. -/
theorem c4_exactly_one_verdict (hasNumpy : Bool) (model : Option MLModel)
    (data : List Byte) :
    ∃! v : Verdict, scan_file hasNumpy model data = v :=
  ⟨scan_file hasNumpy model data, rfl, fun _ hy => hy.symm⟩
